import Mathlib

/-!
# Verification of the goplow event server core

Shallow embedding of the event ingestion + bounded retention + SSE broadcast
subsystem of the goplow repository (package `server`, `handlers`), together
with proofs of the specified properties.

The embedding follows `internal/server/server.go` (variant with the display
transformer and `UnwrapSingleItem`, as in the `server` package that
`internal/handlers/handlers.go` is compiled against) and
`internal/handlers/handlers.go`.

Modelling conventions:
* Go `int` counters (event ids, capacity) are modelled as `Nat` / `Int`;
  the id counter grows by one per append within a process lifetime, far from
  the 64-bit range, so wrap-around is not modelled.
* `time.Time` values are abstract instants modelled as `Nat`; each call site
  of `time.Now()` appears as an explicit `now` argument.
* `map[string]interface{}` values are association lists `List (String × JValue)`;
  Go map iteration/insertion order does not matter for any proved statement.
* The mutex-protected methods run atomically (the Go code takes the
  corresponding lock for the whole method body), so they are modelled as pure
  state transformers.  The spawned broadcast goroutine is modelled as a
  separate function on the registry, composed with the append where a claim
  talks about the combined effect.
-/

namespace Goplow

/-- JSON-compatible values, the payload type of `map[string]interface{}`. -/
inductive JValue where
  | str (s : String)
  | num (n : Int)
  | boolean (b : Bool)
  | null
  | arr (xs : List JValue)
  | obj (fields : List (String × JValue))

/-- One `map[string]interface{}` value: string keys, JSON values. -/
abbrev DataMap := List (String × JValue)

/-- Go map lookup `m[k]` (returning `nil` when absent is `none`). -/
def lookupField (m : DataMap) (k : String) : Option JValue :=
  (m.find? (fun p => p.1 == k)).map (fun p => p.2)

/-- `server.Event`: an analytics event with Snowplow schema structure. -/
structure Event where
  id : Nat
  schema : String
  data : List DataMap
  timestamp : Nat
  receivedAt : Nat
  /-- `UnwrapSingleItem` indicates whether to display single-item arrays as a
  single object (JSON-ignored field, zero value `false`). -/
  unwrapSingleItem : Bool

/-- `server.SSEClient`: one SSE connection.  The `Writer`/`Flusher` handles
are abstracted away (delivery success is a parameter of the broadcast);
`doneClosed` is the state of the `Done` channel (`close` has happened). -/
structure SSEClient where
  id : String
  doneClosed : Bool
deriving DecidableEq

/-- `server.ServerConfig` (the fields the core reads; `MaxMsgs` is a Go
`int`, so it can be zero or negative). -/
structure ServerConfig where
  port : Int
  host : String
  maxMsgs : Int
  eventsEndpoint : String
deriving DecidableEq

/-- `server.CORSConfig`. -/
structure CORSConfig where
  allowedOrigins : String
deriving DecidableEq

/-- `server.Config`. -/
structure Config where
  server : ServerConfig
  cors : CORSConfig
deriving DecidableEq

/-- `server.AppServer`: the web server state.  `transformer` is the function
field set by `SetEventTransformer` (`none` is Go's `nil`). -/
structure AppServer where
  config : Config
  events : List Event
  eventID : Nat
  sseClients : List (String × SSEClient)
  transformer : Option (Event → Event)

/-- `server.New`: creates a new application server (no validation of the
configuration is performed). -/
def New (config : Config) : AppServer :=
  { config := config
    events := []
    eventID := 0
    sseClients := []
    transformer := none }

/-- The `Event` literal constructed inside `AddEventWithTime` for the given
assigned id (`UnwrapSingleItem` is left at its zero value `false`). -/
def builtEvent (id : Nat) (schema : String) (data : List DataMap)
    (timestamp now : Nat) : Event :=
  { id := id
    schema := schema
    data := data
    timestamp := timestamp
    receivedAt := now
    unwrapSingleItem := false }

/-- `AppServer.AddEventWithTime`: assigns the next id, appends the event and
evicts the oldest one when the buffer exceeds `MaxMsgs`.  `now` is the
`time.Now()` read for `ReceivedAt`.  The `go s.broadcastNewEvent(event)`
goroutine does not touch the event buffer; it is modelled by
`broadcastNewEvent` below. -/
def AddEventWithTime (s : AppServer) (schema : String) (data : List DataMap)
    (timestamp now : Nat) : AppServer :=
  let id := s.eventID + 1
  let event := builtEvent id schema data timestamp now
  let evs := s.events ++ [event]
  let evs' := if (evs.length : Int) > s.config.server.maxMsgs then evs.drop 1 else evs
  { s with eventID := id, events := evs' }

/-- `AppServer.AddEvent`: `AddEventWithTime` with `timestamp = time.Now()`. -/
def AddEvent (s : AppServer) (schema : String) (data : List DataMap)
    (now : Nat) : AppServer :=
  AddEventWithTime s schema data now now

/-- `AppServer.GetEvents`: returns a copy of the event buffer under the read
lock.  In this value-level model the copy is the list value itself; the
aliasing behaviour of the shallow copy is modelled in `AliasModel` below. -/
def GetEvents (s : AppServer) : List Event :=
  s.events

/-- `AppServer.SetEventTransformer`. -/
def SetEventTransformer (s : AppServer) (f : Event → Event) : AppServer :=
  { s with transformer := some f }

/-! ## SSE client registry -/

/-- Go map lookup `s.sseClients[cid]`. -/
def regGet (reg : List (String × SSEClient)) (cid : String) : Option SSEClient :=
  (reg.find? (fun p => p.1 == cid)).map (fun p => p.2)

/-- Go map delete `delete(s.sseClients, cid)`. -/
def regErase (reg : List (String × SSEClient)) (cid : String) :
    List (String × SSEClient) :=
  reg.filter (fun p => !(p.1 == cid))

/-- Go map assignment `s.sseClients[cid] = c` (overwrites any previous
entry for the key). -/
def regSet (reg : List (String × SSEClient)) (cid : String) (c : SSEClient) :
    List (String × SSEClient) :=
  regErase reg cid ++ [(cid, c)]

/-- `AppServer.AddSSEClient`: registers a new SSE client under the exclusive
lock.  `writerIsFlusher` models the `w.(http.Flusher)` type assertion; when
it fails the method returns `nil` without touching the registry.  The new
client's `Done` channel is freshly made, hence open. -/
def AddSSEClient (s : AppServer) (clientID : String) (writerIsFlusher : Bool) :
    Option SSEClient × AppServer :=
  if !writerIsFlusher then (none, s)
  else
    let client : SSEClient := { id := clientID, doneClosed := false }
    (some client, { s with sseClients := regSet s.sseClients clientID client })

/-- Go channel close: closing an already-closed channel panics (`none`);
otherwise the channel becomes closed. -/
def closeChan (alreadyClosed : Bool) : Option Bool :=
  if alreadyClosed then none else some true

/-- `AppServer.RemoveSSEClient`: under the exclusive lock, if the client is
registered, closes its `Done` channel and deletes it; otherwise does
nothing.  `none` is a double-close panic; the returned `Bool` records
whether this call signalled (closed) the client's `Done` channel. -/
def RemoveSSEClient (s : AppServer) (clientID : String) :
    Option (AppServer × Bool) :=
  match regGet s.sseClients clientID with
  | some client =>
      match closeChan client.doneClosed with
      | none => none
      | some _ =>
          some ({ s with sseClients := regErase s.sseClients clientID }, true)
  | none => some (s, false)

/-! ## Broadcast -/

/-- The `eventToSend` computed at the top of `broadcastNewEvent`: the
transformer is applied when one is configured. -/
def eventToSend (s : AppServer) (event : Event) : Event :=
  match s.transformer with
  | some f => f event
  | none => event

/-- The client loop of `broadcastNewEvent`: for each registered client,
skip it if its `Done` channel is already closed, otherwise attempt
`SendEventToClient`; on error schedule `go s.RemoveSSEClient(clientID)`.
`writeFails cid` abstracts `SendEventToClient` returning an error for that
client (write failure or marshal failure).  Returns the successful pushes
`(clientID, event sent)` in iteration order, and the client ids scheduled
for removal. -/
def broadcastLoop (clients : List (String × SSEClient)) (ev : Event)
    (writeFails : String → Bool) : List (String × Event) × List String :=
  match clients with
  | [] => ([], [])
  | (cid, c) :: rest =>
      let dr := broadcastLoop rest ev writeFails
      if c.doneClosed then dr
      else if writeFails cid then (dr.1, cid :: dr.2)
      else ((cid, ev) :: dr.1, dr.2)

/-- `AppServer.broadcastNewEvent`: applies the transformer and runs the
client loop over the registry (read-locked for the duration of the loop). -/
def broadcastNewEvent (s : AppServer) (event : Event)
    (writeFails : String → Bool) : List (String × Event) × List String :=
  broadcastLoop s.sseClients (eventToSend s event) writeFails

/-- Completion of the `go s.RemoveSSEClient(clientID)` goroutines spawned by
`broadcastNewEvent` (they run once the broadcast releases the read lock).
`none` propagates a double-close panic. -/
def applyRemovals (s : AppServer) : List String → Option AppServer
  | [] => some s
  | cid :: rest =>
      match RemoveSSEClient s cid with
      | some x => applyRemovals x.1 rest
      | none => none

/-- `AddEventWithTime` composed with the completion of its spawned
`broadcastNewEvent` goroutine and of the removal goroutines the broadcast
spawns for failed clients.  Returns the final server state and the list of
successful pushes. -/
def AddEventBroadcastWithTime (s : AppServer) (schema : String)
    (data : List DataMap) (timestamp now : Nat) (writeFails : String → Bool) :
    Option (AppServer × List (String × Event)) :=
  let s' := AddEventWithTime s schema data timestamp now
  let event := builtEvent (s.eventID + 1) schema data timestamp now
  let dr := broadcastNewEvent s' event writeFails
  match applyRemovals s' dr.2 with
  | some s'' => some (s'', dr.1)
  | none => none

/-! ## Display transformation (`internal/handlers/handlers.go`) -/

/-- Helper for the conditional field copies `if v, ok := data[k]; ok`. -/
def fieldOpt (data : DataMap) (fromKey toKey : String) : DataMap :=
  match lookupField data fromKey with
  | some v => [(toKey, v)]
  | none => []

/-- Helper for the `se_pr`/`se_va` fields of a structured event: a present
non-nil value is kept, a nil or missing value becomes `"N/A"`. -/
def fieldOrNA (data : DataMap) (fromKey toKey : String) : DataMap :=
  match lookupField data fromKey with
  | some JValue.null => [(toKey, JValue.str "N/A")]
  | some v => [(toKey, v)]
  | none => [(toKey, JValue.str "N/A")]

/-- `handlers.transformPageView`. -/
def transformPageView (data : DataMap) : DataMap :=
  [("kind", JValue.str "Page View")]
    ++ fieldOpt data "url" "url"
    ++ fieldOpt data "page" "page"
    ++ fieldOpt data "refr" "referrer"
    ++ fieldOpt data "tna" "tracker"
    ++ fieldOpt data "aid" "app_id"
    ++ fieldOpt data "duid" "device_id"
    ++ fieldOpt data "cx" "context"

/-- `handlers.transformStructuredEvent`. -/
def transformStructuredEvent (data : DataMap) : DataMap :=
  [("kind", JValue.str "Structured Event")]
    ++ fieldOpt data "se_ca" "category"
    ++ fieldOpt data "se_ac" "action"
    ++ fieldOpt data "se_la" "label"
    ++ fieldOrNA data "se_pr" "property"
    ++ fieldOrNA data "se_va" "value"
    ++ fieldOpt data "url" "url"
    ++ fieldOpt data "aid" "app_id"
    ++ fieldOpt data "duid" "device_id"
    ++ fieldOpt data "cx" "context"

/-- `handlers.transformUnstructuredEvent`. -/
def transformUnstructuredEvent (data : DataMap) : DataMap :=
  [("kind", JValue.str "Self-Describing Event")]
    ++ fieldOpt data "url" "url"
    ++ fieldOpt data "ue_px" "payload"
    ++ fieldOpt data "aid" "app_id"
    ++ fieldOpt data "duid" "device_id"
    ++ fieldOpt data "cx" "context"

/-- `handlers.transformEvent`: dispatches on the `"e"` key (which must hold
a string); unknown or missing event types are returned as-is. -/
def transformEvent (eventData : DataMap) : DataMap :=
  match lookupField eventData "e" with
  | some (JValue.str t) =>
      if t = "pv" then transformPageView eventData
      else if t = "se" then transformStructuredEvent eventData
      else if t = "ue" then transformUnstructuredEvent eventData
      else eventData
  | _ => eventData

/-- `handlers.transformEventForDisplay`: transforms each data item and marks
single-item events for unwrapping in the SSE JSON output. -/
def transformEventForDisplay (event : Event) : Event :=
  let transformedEvent := { event with data := event.data.map transformEvent }
  if transformedEvent.data.length = 1 then
    { transformedEvent with unwrapSingleItem := true }
  else transformedEvent

/-- The shape of the `data` field of the JSON an SSE client receives:
either one unwrapped object or an array of objects. -/
inductive SSEDataShape where
  | single (m : DataMap)
  | array (ms : List DataMap)

/-- The `dataToSend` computation at the top of `SendEventToClient`: a
single-item data array is unwrapped exactly when `UnwrapSingleItem` is set. -/
def dataToSend (event : Event) : SSEDataShape :=
  match event.data, event.unwrapSingleItem with
  | [m], true => SSEDataShape.single m
  | ms, _ => SSEDataShape.array ms

/-- The `EventForSSE` value `SendEventToClient` marshals to JSON. -/
structure EventForSSE where
  id : Nat
  schema : String
  data : SSEDataShape
  timestamp : Nat
  receivedAt : Nat

/-- The wire representation built by `SendEventToClient`. -/
def eventForSSE (event : Event) : EventForSSE :=
  { id := event.id
    schema := event.schema
    data := dataToSend event
    timestamp := event.timestamp
    receivedAt := event.receivedAt }

/-! ## Ingestion endpoint (`handlers.HandlePostMessage`, JSON branch) -/

/-- `handlers.HandlePostMessage`, JSON branch, for an already-decoded
top-level payload object.  Returns the server state after the request and
`some errorMessage` when the request was answered with `http.Error` (the
error paths run before any `AddEvent*` call, so they leave the server
unchanged).  `now` is the clock during this request (`sharedTime` and the
per-append `time.Now()` reads). -/
def handlePostJSON (s : AppServer) (payload : DataMap) (now : Nat) :
    AppServer × Option String :=
  match lookupField payload "schema" with
  | some (JValue.str schema) =>
      match lookupField payload "data" with
      | none => (s, some "Missing data field")
      | some dataRaw =>
          match dataRaw with
          | JValue.arr dataArray =>
              let eventDataList := dataArray.filterMap (fun item =>
                match item with
                | JValue.obj dataMap => some [dataMap]
                | _ => none)
              if eventDataList.isEmpty then (s, some "Invalid data format")
              else
                (eventDataList.foldl
                  (fun srv eventData => AddEventWithTime srv schema eventData now now)
                  s, none)
          | JValue.obj dataMap =>
              (AddEvent s schema [dataMap] now, none)
          | _ => (s, some "Invalid data format - must be an object or array")
  | _ => (s, some "Missing schema field")

/-- The claim's notion of a malformed JSON ingestion payload: missing (or
non-string) schema, missing data, or a data field that is neither an object
nor an array containing at least one object. -/
def malformedPayload (payload : DataMap) : Bool :=
  match lookupField payload "schema" with
  | some (JValue.str _) =>
      match lookupField payload "data" with
      | none => true
      | some (JValue.obj _) => false
      | some (JValue.arr xs) =>
          !(xs.any fun item =>
            match item with
            | JValue.obj _ => true
            | _ => false)
      | some _ => true
  | _ => true

/-- The events a successful array-shaped ingestion request appends: one
event per object, with consecutive ids, one-element data and a shared
timestamp. -/
def batchEvents (startId : Nat) (schema : String) (now : Nat) :
    List DataMap → List Event
  | [] => []
  | m :: rest =>
      builtEvent (startId + 1) schema [m] now now
        :: batchEvents (startId + 1) schema now rest

/-! ## Append sequences (for the store-level properties) -/

/-- The arguments of one `AddEventWithTime` call. -/
structure AppendInput where
  schema : String
  data : List DataMap
  timestamp : Nat
  now : Nat

/-- Runs a sequence of `AddEventWithTime` calls. -/
def runAppends (s : AppServer) (inputs : List AppendInput) : AppServer :=
  inputs.foldl (fun srv i => AddEventWithTime srv i.schema i.data i.timestamp i.now) s

/-- The events a sequence of appends constructs (before any eviction), with
ids counting up from `startId + 1`. -/
def fullHistory (startId : Nat) : List AppendInput → List Event
  | [] => []
  | i :: rest =>
      builtEvent (startId + 1) i.schema i.data i.timestamp i.now
        :: fullHistory (startId + 1) rest

/-- The ids assigned by a sequence of appends, in call order (`event.ID` is
the incremented `s.eventID`). -/
def assignedIds (s : AppServer) : List AppendInput → List Nat
  | [] => []
  | i :: rest =>
      let s' := AddEventWithTime s i.schema i.data i.timestamp i.now
      s'.eventID :: assignedIds s' rest

/-! ## Lock trace of the broadcast (for the locking claim) -/

/-- The registry-lock-relevant primitive steps of `broadcastNewEvent`:
taking/releasing `sseMutex.RLock`, one `SendEventToClient` write attempt,
and spawning `go s.RemoveSSEClient(clientID)`. -/
inductive LockAction where
  | rlockRegistry
  | runlockRegistry
  | send (cid : String)
  | scheduleRemove (cid : String)
deriving DecidableEq

/-- The actions of the client loop of `broadcastNewEvent`: clients with a
closed `Done` channel are skipped, every other client gets one write
attempt, and a failing write additionally schedules a removal. -/
def broadcastBody (clients : List (String × SSEClient))
    (writeFails : String → Bool) : List LockAction :=
  match clients with
  | [] => []
  | (cid, c) :: rest =>
      (if c.doneClosed then []
       else if writeFails cid then [LockAction.send cid, LockAction.scheduleRemove cid]
       else [LockAction.send cid])
        ++ broadcastBody rest writeFails

/-- The lock trace of `broadcastNewEvent`: `s.sseMutex.RLock()` on entry,
the client loop, and the deferred `RUnlock` on exit. -/
def broadcastTrace (clients : List (String × SSEClient))
    (writeFails : String → Bool) : List LockAction :=
  LockAction.rlockRegistry :: broadcastBody clients writeFails
    ++ [LockAction.runlockRegistry]

/-- Counts the `send` actions of a trace performed while the registry lock
is not held (`depth` is the current lock depth). -/
def sendsWhileUnlocked : List LockAction → Nat → Nat
  | [], _ => 0
  | a :: rest, depth =>
      match a with
      | LockAction.rlockRegistry => sendsWhileUnlocked rest (depth + 1)
      | LockAction.runlockRegistry => sendsWhileUnlocked rest (depth - 1)
      | LockAction.send _ => (if depth = 0 then 1 else 0) + sendsWhileUnlocked rest depth
      | LockAction.scheduleRemove _ => sendsWhileUnlocked rest depth

/-- Counts all `send` actions of a trace. -/
def sendCount (tr : List LockAction) : Nat :=
  tr.countP (fun a =>
    match a with
    | LockAction.send _ => true
    | _ => false)

/-! ## Aliasing model of `GetEvents` (for the defensive-copy claim)

In Go, `Event.Data` has type `[]map[string]interface{}` and maps are
reference values, so the `copy(evts, s.events)` in `GetEvents` copies the
`Event` structs but the copied structs still reference the same maps as the
store.  This refinement of the value-level model makes those references
explicit as heap addresses, so that the effect of a caller writing into a
map reachable from the returned slice can be stated. -/

namespace AliasModel

/-- An `Event` struct whose `Data` entries are references (heap addresses)
to `map[string]interface{}` values; the other fields as in `Event`. -/
structure EventA where
  id : Nat
  schema : String
  dataRefs : List Nat
  timestamp : Nat
  receivedAt : Nat
deriving DecidableEq

/-- The map heap: address `a` holds the map contents at index `a`. -/
abbrev Heap := List DataMap

/-- The store's buffer together with the heap its events' maps live in. -/
structure StoreA where
  heap : Heap
  events : List EventA

/-- `AppServer.GetEvents` in the aliasing model: `copy` duplicates the
`Event` structs into a fresh slice (so the returned list is a new value and
the store's own `events` list cannot be changed through it), but each copied
struct holds the same `dataRefs` addresses as the stored one. -/
def GetEventsA (s : StoreA) : List EventA :=
  s.events

/-- Go map assignment `m[k] = v`. -/
def mapWrite (m : DataMap) (k : String) (v : JValue) : DataMap :=
  if (m.find? (fun p => p.1 == k)).isSome then
    m.map (fun p => if p.1 == k then (p.1, v) else p)
  else m ++ [(k, v)]

/-- A caller's write `someMap[k] = v` into the map at address `a`, e.g. a
map obtained as `GetEvents()[i].Data[j]`. -/
def heapWrite (h : Heap) (a : Nat) (k : String) (v : JValue) : Heap :=
  h.set a (mapWrite (h.getD a []) k v)

/-- The observable data content of one event as a reader (e.g.
`json.Marshal`) sees it: every map reference dereferenced in the heap. -/
def renderEvent (h : Heap) (e : EventA) : List DataMap :=
  e.dataRefs.map (fun a => h.getD a [])

/-- The observable data contents of a `GetEvents` result. -/
def renderList (s : StoreA) : List (List DataMap) :=
  (GetEventsA s).map (renderEvent s.heap)

end AliasModel

/-! ## Concrete fixtures used by the witnesses and counterexamples -/

/-- A configuration with buffer capacity 3. -/
def cfg3 : Config :=
  { server := { port := 8080, host := "localhost", maxMsgs := 3,
                eventsEndpoint := "com.simplybusiness/events" }
    cors := { allowedOrigins := "http://localhost:3000" } }

/-- A configuration with buffer capacity 0. -/
def cfgZero : Config :=
  { server := { port := 8080, host := "localhost", maxMsgs := 0,
                eventsEndpoint := "com.simplybusiness/events" }
    cors := { allowedOrigins := "http://localhost:3000" } }

/-- A one-field data map fixture. -/
def dmap (k : String) (n : Int) : DataMap := [(k, JValue.num n)]

/-- Four appends with schemas `"a"`, `"b"`, `"c"`, `"d"`. -/
def inputsABCD : List AppendInput :=
  [ { schema := "a", data := [dmap "k" 1], timestamp := 10, now := 11 }
  , { schema := "b", data := [dmap "k" 2], timestamp := 20, now := 21 }
  , { schema := "c", data := [dmap "k" 3], timestamp := 30, now := 31 }
  , { schema := "d", data := [dmap "k" 4], timestamp := 40, now := 41 } ]

/-- A server with two registered SSE clients, `"good"` and `"bad"`. -/
def serverTwoClients : AppServer :=
  { config := cfg3
    events := []
    eventID := 0
    sseClients := [("good", { id := "good", doneClosed := false }),
                   ("bad", { id := "bad", doneClosed := false })]
    transformer := none }

/-- A delivery outcome where exactly the client `"bad"` fails. -/
def failsBad : String → Bool := fun cid => cid == "bad"

/-- A delivery outcome where no client fails. -/
def failsNone : String → Bool := fun _ => false

/-- A registry with the single healthy client `"c1"`. -/
def oneClient : List (String × SSEClient) :=
  [("c1", { id := "c1", doneClosed := false })]

/-- A well-formed ingestion payload whose data is an array of two objects. -/
def payloadGood : DataMap :=
  [ ("schema", JValue.str "iglu:com.acme/events")
  , ("data", JValue.arr [JValue.obj (dmap "x" 1), JValue.obj (dmap "y" 2)]) ]

/-- A malformed ingestion payload: data is an array with no object. -/
def payloadBad : DataMap :=
  [ ("schema", JValue.str "iglu:com.acme/events")
  , ("data", JValue.arr [JValue.str "oops"]) ]

/-- An event with a single data item carrying a Snowplow page-view payload. -/
def pvEvent : Event :=
  builtEvent 1 "iglu:com.snowplowanalytics.snowplow/payload_data"
    [[("e", JValue.str "pv"), ("url", JValue.str "/home")]] 5 6

/-- An event with two data items. -/
def twoItemEvent : Event :=
  builtEvent 2 "iglu:com.snowplowanalytics.snowplow/payload_data"
    [dmap "p" 1, dmap "q" 2] 7 8

/-- An aliasing-model store with one event whose single data map lives at
heap address 0 and holds `x ↦ 1`. -/
def storeFix : AliasModel.StoreA :=
  { heap := [[("x", JValue.num 1)]]
    events := [{ id := 1, schema := "a", dataRefs := [0],
                 timestamp := 0, receivedAt := 0 }] }

/-! # Theorems -/

/-! ## Basic facts about appends -/

theorem runAppends_nil (s : AppServer) : runAppends s [] = s := rfl

theorem runAppends_cons (s : AppServer) (i : AppendInput) (rest : List AppendInput) :
    runAppends s (i :: rest)
      = runAppends (AddEventWithTime s i.schema i.data i.timestamp i.now) rest := rfl

theorem runAppends_append_one (s : AppServer) (l : List AppendInput) (x : AppendInput) :
    runAppends s (l ++ [x])
      = AddEventWithTime (runAppends s l) x.schema x.data x.timestamp x.now := by
  simp [runAppends, List.foldl_append]

theorem AddEventWithTime_eventID (s : AppServer) (schema : String)
    (data : List DataMap) (t n : Nat) :
    (AddEventWithTime s schema data t n).eventID = s.eventID + 1 := rfl

theorem AddEventWithTime_config (s : AppServer) (schema : String)
    (data : List DataMap) (t n : Nat) :
    (AddEventWithTime s schema data t n).config = s.config := rfl

theorem AddEventWithTime_sseClients (s : AppServer) (schema : String)
    (data : List DataMap) (t n : Nat) :
    (AddEventWithTime s schema data t n).sseClients = s.sseClients := rfl

theorem AddEventWithTime_transformer (s : AppServer) (schema : String)
    (data : List DataMap) (t n : Nat) :
    (AddEventWithTime s schema data t n).transformer = s.transformer := rfl

theorem AddEventWithTime_events (s : AppServer) (schema : String)
    (data : List DataMap) (t n : Nat) :
    (AddEventWithTime s schema data t n).events
      = if ((s.events ++ [builtEvent (s.eventID + 1) schema data t n]).length : Int)
            > s.config.server.maxMsgs
        then (s.events ++ [builtEvent (s.eventID + 1) schema data t n]).drop 1
        else s.events ++ [builtEvent (s.eventID + 1) schema data t n] := rfl

/-! ## Facts about `fullHistory` -/

theorem fullHistory_length (startId : Nat) (l : List AppendInput) :
    (fullHistory startId l).length = l.length := by
  induction l generalizing startId with
  | nil => rfl
  | cons i rest ih => simp [fullHistory, ih]

theorem fullHistory_append_one (startId : Nat) (l : List AppendInput) (x : AppendInput) :
    fullHistory startId (l ++ [x])
      = fullHistory startId l
        ++ [builtEvent (startId + l.length + 1) x.schema x.data x.timestamp x.now] := by
  induction l generalizing startId with
  | nil => simp [fullHistory]
  | cons i rest ih =>
      calc fullHistory startId ((i :: rest) ++ [x])
          = builtEvent (startId + 1) i.schema i.data i.timestamp i.now
              :: fullHistory (startId + 1) (rest ++ [x]) := rfl
        _ = builtEvent (startId + 1) i.schema i.data i.timestamp i.now
              :: (fullHistory (startId + 1) rest
                  ++ [builtEvent (startId + 1 + rest.length + 1)
                        x.schema x.data x.timestamp x.now]) := by rw [ih]
        _ = fullHistory startId (i :: rest)
              ++ [builtEvent (startId + (i :: rest).length + 1)
                    x.schema x.data x.timestamp x.now] := by
            have h2 : startId + 1 + rest.length + 1 = startId + (i :: rest).length + 1 := by
              simp only [List.length_cons]
              omega
            rw [h2]
            rfl

theorem fullHistory_map_id (startId : Nat) (l : List AppendInput) :
    (fullHistory startId l).map Event.id = List.range' (startId + 1) l.length := by
  induction l generalizing startId with
  | nil => rfl
  | cons i rest ih =>
      simp [fullHistory, List.range'_succ, builtEvent, ih]

theorem fullHistory_map_schema (startId : Nat) (l : List AppendInput) :
    (fullHistory startId l).map Event.schema = l.map AppendInput.schema := by
  induction l generalizing startId with
  | nil => rfl
  | cons i rest ih => simp [fullHistory, builtEvent, ih]

theorem range'_drop_general (k a n : Nat) :
    (List.range' a n).drop k = List.range' (a + k) (n - k) := by
  induction k generalizing a n with
  | zero => simp
  | succ k ih =>
      cases n with
      | zero => simp
      | succ m =>
          rw [List.range'_succ, List.drop_succ_cons, ih]
          congr 1 <;> omega

/-! ## The buffer contents after a sequence of appends -/

theorem runAppends_spec (cfg : Config) (N : Nat) (hN : 1 ≤ N)
    (hcap : cfg.server.maxMsgs = (N : Int)) (inputs : List AppendInput) :
    (runAppends (New cfg) inputs).config = cfg ∧
    (runAppends (New cfg) inputs).eventID = inputs.length ∧
    (runAppends (New cfg) inputs).events
      = (fullHistory 0 inputs).drop (inputs.length - N) := by
  induction inputs using List.reverseRecOn with
  | nil =>
      refine ⟨rfl, rfl, ?_⟩
      simp [runAppends, New, fullHistory]
  | append_singleton l x ih =>
      obtain ⟨hc, hid, hev⟩ := ih
      rw [runAppends_append_one]
      have hlenfull : (fullHistory 0 l).length = l.length := fullHistory_length 0 l
      refine ⟨hc, ?_, ?_⟩
      · rw [AddEventWithTime_eventID, hid]
        simp
      · rw [AddEventWithTime_events, hc, hid, hev, hcap]
        have hz : (0 : Nat) + l.length + 1 = l.length + 1 := by omega
        have hfull : fullHistory 0 (l ++ [x])
            = fullHistory 0 l
              ++ [builtEvent (l.length + 1) x.schema x.data x.timestamp x.now] := by
          rw [fullHistory_append_one, hz]
        have hlen2 : ((fullHistory 0 l).drop (l.length - N)
            ++ [builtEvent (l.length + 1) x.schema x.data x.timestamp x.now]).length
            = l.length - (l.length - N) + 1 := by
          simp [hlenfull]
        by_cases hcase : N ≤ l.length
        · have hgt : (((fullHistory 0 l).drop (l.length - N)
              ++ [builtEvent (l.length + 1) x.schema x.data x.timestamp x.now]).length : Int)
              > (N : Int) := by
            rw [hlen2]
            exact_mod_cast (show N < l.length - (l.length - N) + 1 by omega)
          rw [if_pos hgt, hfull]
          simp only [List.length_append, List.length_singleton]
          have h1 : 1 ≤ ((fullHistory 0 l).drop (l.length - N)).length := by
            rw [List.length_drop, hlenfull]
            omega
          rw [List.drop_append_of_le_length h1, List.drop_drop]
          have h2 : l.length + 1 - N ≤ (fullHistory 0 l).length := by omega
          rw [List.drop_append_of_le_length h2]
          have h3 : l.length - N + 1 = l.length + 1 - N := by omega
          rw [h3]
        · have hng : ¬ ((((fullHistory 0 l).drop (l.length - N)
              ++ [builtEvent (l.length + 1) x.schema x.data x.timestamp x.now]).length : Int)
              > (N : Int)) := by
            rw [hlen2]
            intro hcon
            have : N < l.length - (l.length - N) + 1 := by exact_mod_cast hcon
            omega
          rw [if_neg hng, hfull]
          simp only [List.length_append, List.length_singleton]
          have h0 : l.length - N = 0 := by omega
          have h0' : l.length + 1 - N = 0 := by omega
          rw [h0, h0', List.drop_zero, List.drop_zero]

/-- Claim C1: for every store constructed with capacity `N ≥ 1` and every
sequence of `N + k` appends, `GetEvents` returns exactly `N` events, and
they are the `N` most recent appends, oldest-first, with strictly increasing
ids `k+1, …, k+N`. -/
theorem capacity_invariant (cfg : Config) (N k : Nat) (hN : 1 ≤ N)
    (hcap : cfg.server.maxMsgs = (N : Int)) (inputs : List AppendInput)
    (hlen : inputs.length = N + k) :
    (GetEvents (runAppends (New cfg) inputs)).length = N ∧
    GetEvents (runAppends (New cfg) inputs) = (fullHistory 0 inputs).drop k ∧
    (GetEvents (runAppends (New cfg) inputs)).map Event.id = List.range' (k + 1) N ∧
    (GetEvents (runAppends (New cfg) inputs)).map Event.schema
      = (inputs.drop k).map AppendInput.schema := by
  obtain ⟨-, -, hev⟩ := runAppends_spec cfg N hN hcap inputs
  have hk : inputs.length - N = k := by omega
  have hev' : GetEvents (runAppends (New cfg) inputs) = (fullHistory 0 inputs).drop k := by
    rw [GetEvents, hev, hk]
  refine ⟨?_, hev', ?_, ?_⟩
  · rw [hev', List.length_drop, fullHistory_length, hlen]
    omega
  · rw [hev', List.map_drop, fullHistory_map_id, range'_drop_general, hlen]
    have h1 : 0 + 1 + k = k + 1 := by omega
    have h2 : N + k - k = N := by omega
    rw [h1, h2]
  · rw [hev', List.map_drop, fullHistory_map_schema, ← List.map_drop]

/-- Claim C1 witness: the concrete scenario — capacity 3, appends with
schemas "a","b","c","d" — leaves `GetEvents` returning the events with
schemas ["b","c","d"] and ids [2,3,4]. -/
theorem capacity_invariant_witness :
    (GetEvents (runAppends (New cfg3) inputsABCD)).map Event.id = [2, 3, 4] ∧
    (GetEvents (runAppends (New cfg3) inputsABCD)).map Event.schema
      = ["b", "c", "d"] := by
  have h := capacity_invariant cfg3 3 1 (by decide) rfl inputsABCD rfl
  refine ⟨?_, ?_⟩
  · rw [h.2.2.1]
    decide
  · rw [h.2.2.2]
    decide

/-! ## Id assignment -/

theorem assignedIds_eq (inputs : List AppendInput) (s : AppServer) :
    assignedIds s inputs = List.range' (s.eventID + 1) inputs.length := by
  induction inputs generalizing s with
  | nil => rfl
  | cons i rest ih =>
      simp only [assignedIds, List.length_cons, AddEventWithTime_eventID, ih]
      rw [List.range'_succ]

/-- Claim C2: the ids assigned by any sequence of appends are exactly
`1, 2, …, m` in call order — starting at 1, each one greater than the
previous, never duplicated, skipped, or reused (even after eviction, since
the counter never goes backwards). -/
theorem id_monotonicity (cfg : Config) (inputs : List AppendInput) :
    assignedIds (New cfg) inputs = List.range' 1 inputs.length := by
  rw [assignedIds_eq]
  rfl

/-! ## Capacity validation at construction -/

/-- Claim C4 counterexample: constructing the store with capacity 0 does
not fail — `New` returns a store, and that store is usable: `GetEvents`
answers and an append succeeds, assigning id 1. -/
theorem capacity_validation_counterexample :
    (New cfgZero).eventID = 0 ∧
    GetEvents (New cfgZero) = [] ∧
    (AddEventWithTime (New cfgZero) "a" [dmap "k" 1] 0 0).eventID = 1 :=
  ⟨rfl, rfl, rfl⟩

theorem runAppends_nonpositive (inputs : List AppendInput) (s : AppServer)
    (hcap : s.config.server.maxMsgs ≤ 0) (hev : s.events = []) :
    (runAppends s inputs).eventID = s.eventID + inputs.length ∧
    (runAppends s inputs).events = [] := by
  induction inputs generalizing s with
  | nil => exact ⟨rfl, hev⟩
  | cons i rest ih =>
      rw [runAppends_cons]
      have hev' : (AddEventWithTime s i.schema i.data i.timestamp i.now).events = [] := by
        rw [AddEventWithTime_events, hev]
        have hgt : (([builtEvent (s.eventID + 1) i.schema i.data i.timestamp i.now].length : Int)
            > s.config.server.maxMsgs) := by
          simp only [List.length_singleton]
          omega
        simp only [List.nil_append, if_pos hgt, List.drop_succ_cons, List.drop_nil]
      have hcap' : (AddEventWithTime s i.schema i.data i.timestamp i.now).config.server.maxMsgs ≤ 0 := by
        rw [AddEventWithTime_config]
        exact hcap
      obtain ⟨h1, h2⟩ := ih _ hcap' hev'
      refine ⟨?_, h2⟩
      rw [h1, AddEventWithTime_eventID]
      simp only [List.length_cons]
      omega

/-- Claim C4 amended: `New` performs no capacity validation — for every
capacity ≤ 0 construction still succeeds and yields a usable store; that
store accepts appends (its id counter advances) but retains nothing: after
any sequence of appends `GetEvents` returns `[]`. -/
theorem capacity_nonpositive_behavior (cfg : Config)
    (hcap : cfg.server.maxMsgs ≤ 0) (inputs : List AppendInput) :
    (runAppends (New cfg) inputs).eventID = inputs.length ∧
    GetEvents (runAppends (New cfg) inputs) = [] := by
  obtain ⟨h1, h2⟩ := runAppends_nonpositive inputs (New cfg) hcap rfl
  exact ⟨by rw [h1]; simp [New], h2⟩

/-- Claim C4 amended witness: a capacity-0 store, after the four appends,
has id counter 4 and an empty buffer. -/
theorem capacity_nonpositive_behavior_witness :
    (runAppends (New cfgZero) inputsABCD).eventID = 4 ∧
    GetEvents (runAppends (New cfgZero) inputsABCD) = [] := by
  have h := capacity_nonpositive_behavior cfgZero (by decide) inputsABCD
  exact ⟨by rw [h.1]; decide, h.2⟩

/-! ## Registry lookup facts -/

theorem regGet_cons (p : String × SSEClient) (rest : List (String × SSEClient))
    (y : String) :
    regGet (p :: rest) y = if p.1 == y then some p.2 else regGet rest y := by
  cases hy : p.1 == y <;> simp [regGet, List.find?, hy]

theorem regGet_erase_self (reg : List (String × SSEClient)) (cid : String) :
    regGet (regErase reg cid) cid = none := by
  induction reg with
  | nil => rfl
  | cons p rest ih =>
      rw [regErase, List.filter_cons]
      by_cases hb : p.1 = cid
      · simpa [hb, regErase] using ih
      · have hb' : (p.1 == cid) = false := by simp [hb]
        simp only [hb', Bool.not_false, if_pos]
        rw [regGet_cons, hb']
        simpa [regErase] using ih

theorem regGet_erase_other (reg : List (String × SSEClient)) (cid y : String)
    (h : y ≠ cid) :
    regGet (regErase reg cid) y = regGet reg y := by
  induction reg with
  | nil => rfl
  | cons p rest ih =>
      rw [regErase, List.filter_cons]
      by_cases hb : p.1 = cid
      · have hb' : (p.1 == cid) = true := by simp [hb]
        have hpy : (p.1 == y) = false := by
          simp only [beq_eq_false_iff_ne, ne_eq]
          intro hc
          exact h (by rw [← hc, hb])
        simp only [hb', Bool.not_true, if_neg, Bool.false_eq_true, not_false_iff]
        rw [regGet_cons, hpy]
        simpa [regErase] using ih
      · have hb' : (p.1 == cid) = false := by simp [hb]
        simp only [hb', Bool.not_false, if_pos]
        rw [regGet_cons, regGet_cons]
        cases hy : p.1 == y
        · simpa [regErase] using ih
        · rfl

theorem regGet_append (l₁ l₂ : List (String × SSEClient)) (y : String) :
    regGet (l₁ ++ l₂) y
      = match regGet l₁ y with
        | some c => some c
        | none => regGet l₂ y := by
  induction l₁ with
  | nil => rfl
  | cons p rest ih =>
      rw [List.cons_append, regGet_cons, regGet_cons]
      cases hy : p.1 == y
      · simpa using ih
      · rfl

theorem regGet_set_self (reg : List (String × SSEClient)) (cid : String)
    (c : SSEClient) :
    regGet (regSet reg cid c) cid = some c := by
  rw [regSet, regGet_append, regGet_erase_self]
  simp [regGet, List.find?]

theorem regGet_set_other (reg : List (String × SSEClient)) (cid y : String)
    (c : SSEClient) (h : y ≠ cid) :
    regGet (regSet reg cid c) y = regGet reg y := by
  rw [regSet, regGet_append, regGet_erase_other reg cid y h]
  cases hr : regGet reg y with
  | some c' => rfl
  | none =>
      have : (cid == y) = false := by
        simp only [beq_eq_false_iff_ne, ne_eq]
        intro hc
        exact h hc.symm
      simp [regGet, List.find?, this]

theorem regKeys_erase_sub (reg : List (String × SSEClient)) (cid : String)
    (h : (reg.map Prod.fst).Nodup) :
    ((regErase reg cid).map Prod.fst).Nodup :=
  ((List.filter_sublist reg).map Prod.fst).nodup h

theorem regKeys_set_nodup (reg : List (String × SSEClient)) (cid : String)
    (c : SSEClient) (h : (reg.map Prod.fst).Nodup) :
    ((regSet reg cid c).map Prod.fst).Nodup := by
  rw [regSet, List.map_append]
  refine List.Nodup.append (regKeys_erase_sub reg cid h) (by simp) ?_
  intro a ha hmem
  simp only [List.map_cons, List.map_nil, List.mem_singleton] at hmem
  subst hmem
  simp only [List.mem_map] at ha
  obtain ⟨p, hp, hpa⟩ := ha
  rw [regErase, List.mem_filter] at hp
  have := hp.2
  rw [hpa] at this
  simp at this

theorem doneClosed_of_regGet (reg : List (String × SSEClient))
    (hwf : ∀ p ∈ reg, p.2.doneClosed = false) (cid : String) (c : SSEClient)
    (h : regGet reg cid = some c) : c.doneClosed = false := by
  rw [regGet] at h
  cases hf : reg.find? (fun p => p.1 == cid) with
  | none => rw [hf] at h; cases h
  | some p =>
      rw [hf] at h
      have hp : p ∈ reg := List.mem_of_find?_eq_some hf
      have := hwf p hp
      cases h
      exact this

/-! ## Unregistration -/

/-- Claim C7: `RemoveSSEClient` is idempotent and signals the done channel
exactly once.  For every well-formed registry state: the call never panics
by double-closing; it signals (closes) the `Done` channel exactly when the
id was registered; a second call on the same id (or a call for a never
registered id) is a no-op that signals nothing; and no other subscriber's
entry is affected. -/
theorem unregister_idempotent (s : AppServer) (cid : String)
    (hwf : ∀ p ∈ s.sseClients, p.2.doneClosed = false) :
    ∃ s₁ fired, RemoveSSEClient s cid = some (s₁, fired) ∧
      fired = (regGet s.sseClients cid).isSome ∧
      regGet s₁.sseClients cid = none ∧
      (∀ y, y ≠ cid → regGet s₁.sseClients y = regGet s.sseClients y) ∧
      RemoveSSEClient s₁ cid = some (s₁, false) ∧
      s₁.events = s.events ∧ s₁.eventID = s.eventID := by
  cases hr : regGet s.sseClients cid with
  | none =>
      refine ⟨s, false, ?_, rfl, hr, fun y _ => rfl, ?_, rfl, rfl⟩
      · rw [RemoveSSEClient, hr]
      · rw [RemoveSSEClient, hr]
  | some client =>
      have hdone : client.doneClosed = false :=
        doneClosed_of_regGet s.sseClients hwf cid client hr
      refine ⟨{ s with sseClients := regErase s.sseClients cid }, true,
        ?_, rfl, ?_, ?_, ?_, rfl, rfl⟩
      · simp [RemoveSSEClient, hr, closeChan, hdone]
      · exact regGet_erase_self s.sseClients cid
      · intro y hy
        exact regGet_erase_other s.sseClients cid y hy
      · simp [RemoveSSEClient, regGet_erase_self]

/-- Claim C7 witness: unregistering `"good"` from the two-client server. -/
theorem unregister_idempotent_witness :
    ∃ s₁ fired, RemoveSSEClient serverTwoClients "good" = some (s₁, fired) ∧
      fired = (regGet serverTwoClients.sseClients "good").isSome ∧
      regGet s₁.sseClients "good" = none ∧
      (∀ y, y ≠ "good" → regGet s₁.sseClients y
        = regGet serverTwoClients.sseClients y) ∧
      RemoveSSEClient s₁ "good" = some (s₁, false) ∧
      s₁.events = serverTwoClients.events ∧
      s₁.eventID = serverTwoClients.eventID :=
  unregister_idempotent serverTwoClients "good" (by decide)

/-! ## Duplicate registration -/

/-- Claim C8: registering an id that is already present never corrupts the
registry: `AddSSEClient` deterministically replaces the existing entry with
the fresh client (open done channel), leaves every other id's entry
unchanged, keeps the registry keys duplicate-free, and does not touch the
event buffer. -/
theorem duplicate_register (s : AppServer) (cid : String) (old : SSEClient)
    (_hold : regGet s.sseClients cid = some old)
    (hnd : (s.sseClients.map Prod.fst).Nodup) :
    (AddSSEClient s cid true).1 = some { id := cid, doneClosed := false } ∧
    regGet (AddSSEClient s cid true).2.sseClients cid
      = some { id := cid, doneClosed := false } ∧
    (∀ y, y ≠ cid → regGet (AddSSEClient s cid true).2.sseClients y
      = regGet s.sseClients y) ∧
    ((AddSSEClient s cid true).2.sseClients.map Prod.fst).Nodup ∧
    (AddSSEClient s cid true).2.events = s.events ∧
    (AddSSEClient s cid true).2.eventID = s.eventID := by
  refine ⟨rfl, ?_, ?_, ?_, rfl, rfl⟩
  · exact regGet_set_self s.sseClients cid _
  · intro y hy
    exact regGet_set_other s.sseClients cid y _ hy
  · exact regKeys_set_nodup s.sseClients cid _ hnd

/-- Claim C8 witness: re-registering `"good"` on the two-client server
replaces its entry and leaves `"bad"` untouched. -/
theorem duplicate_register_witness :
    regGet (AddSSEClient serverTwoClients "good" true).2.sseClients "good"
      = some { id := "good", doneClosed := false } ∧
    regGet (AddSSEClient serverTwoClients "good" true).2.sseClients "bad"
      = some { id := "bad", doneClosed := false } := by
  have h := duplicate_register serverTwoClients "good"
    { id := "good", doneClosed := false } (by decide) (by decide)
  refine ⟨h.2.1, ?_⟩
  rw [h.2.2.1 "bad" (by decide)]
  decide

/-! ## Broadcast delivery -/

theorem regGet_mem (reg : List (String × SSEClient)) (cid : String)
    (c : SSEClient) (h : regGet reg cid = some c) : (cid, c) ∈ reg := by
  induction reg with
  | nil => cases h
  | cons q rest ih =>
      rw [regGet_cons] at h
      cases hq : q.1 == cid
      · rw [hq] at h
        simp only [Bool.false_eq_true, if_neg, not_false_iff] at h
        exact List.mem_cons_of_mem q (ih h)
      · rw [hq] at h
        simp only [if_pos] at h
        have h1 : q.1 = cid := by simpa using hq
        have h2 : q.2 = c := by cases h; rfl
        obtain ⟨q1, q2⟩ := q
        simp only at h1 h2
        rw [← h1, ← h2]
        exact List.mem_cons_self _ _

theorem broadcastLoop_pushes_not_mem (clients : List (String × SSEClient))
    (ev : Event) (fails : String → Bool) (cid : String)
    (h : cid ∉ clients.map Prod.fst) :
    (broadcastLoop clients ev fails).1.filter (fun p => p.1 == cid) = [] := by
  induction clients with
  | nil => rfl
  | cons q rest ih =>
      obtain ⟨qid, qc⟩ := q
      simp only [List.map_cons, List.mem_cons, not_or] at h
      obtain ⟨hne, hrest⟩ := h
      have hq : (qid == cid) = false := by
        simp only [beq_eq_false_iff_ne, ne_eq]
        intro hc
        exact hne hc.symm
      rw [broadcastLoop]
      cases qc.doneClosed
      · cases hf : fails qid
        · simp only [Bool.false_eq_true, if_neg, not_false_iff, hf]
          rw [List.filter_cons]
          simp only [hq]
          exact ih hrest
        · simp only [Bool.false_eq_true, if_neg, not_false_iff, hf, if_pos]
          exact ih hrest
      · simp only [if_pos]
        exact ih hrest

theorem broadcastLoop_pushes_mem (clients : List (String × SSEClient))
    (ev : Event) (fails : String → Bool) (cid : String) (c : SSEClient)
    (hnd : (clients.map Prod.fst).Nodup) (hmem : (cid, c) ∈ clients)
    (hdone : c.doneClosed = false) (hok : fails cid = false) :
    (broadcastLoop clients ev fails).1.filter (fun p => p.1 == cid)
      = [(cid, ev)] := by
  induction clients with
  | nil => cases hmem
  | cons q rest ih =>
      obtain ⟨qid, qc⟩ := q
      simp only [List.map_cons, List.nodup_cons] at hnd
      obtain ⟨hqnotin, hndrest⟩ := hnd
      rw [broadcastLoop]
      rcases List.mem_cons.mp hmem with heq | hmem'
      · have h1 : cid = qid := congrArg Prod.fst heq
        have h2 : c = qc := congrArg Prod.snd heq
        rw [← h1, ← h2]
        rw [← h1] at hqnotin
        rw [if_neg (by rw [hdone]; exact Bool.false_ne_true)]
        rw [if_neg (by rw [hok]; exact Bool.false_ne_true)]
        rw [List.filter_cons]
        simp only [beq_self_eq_true, if_pos]
        rw [broadcastLoop_pushes_not_mem rest ev fails cid hqnotin]
      · have hqcid : (qid == cid) = false := by
          simp only [beq_eq_false_iff_ne, ne_eq]
          intro hc
          subst hc
          exact hqnotin (List.mem_map_of_mem Prod.fst hmem')
        cases qc.doneClosed
        · cases hf : fails qid
          · simp only [Bool.false_eq_true, if_neg, not_false_iff, hf]
            rw [List.filter_cons]
            simp only [hqcid]
            exact ih hndrest hmem'
          · simp only [Bool.false_eq_true, if_neg, not_false_iff, hf, if_pos]
            exact ih hndrest hmem'
        · simp only [if_pos]
          exact ih hndrest hmem'

theorem broadcastLoop_removed_eq (clients : List (String × SSEClient))
    (ev : Event) (fails : String → Bool) :
    (broadcastLoop clients ev fails).2
      = (clients.filter (fun p => !p.2.doneClosed && fails p.1)).map Prod.fst := by
  induction clients with
  | nil => rfl
  | cons q rest ih =>
      obtain ⟨qid, qc⟩ := q
      rw [broadcastLoop, List.filter_cons]
      cases hd : qc.doneClosed
      · cases hf : fails qid
        · simp only [hd, hf, Bool.not_false, Bool.true_and, Bool.false_eq_true,
            if_neg, not_false_iff]
          exact ih
        · simp only [hd, hf, Bool.not_false, Bool.true_and, Bool.false_eq_true,
            if_neg, not_false_iff, if_pos, List.map_cons]
          rw [ih]
      · simp only [hd, Bool.not_true, Bool.false_and, Bool.false_eq_true,
          if_neg, not_false_iff, if_pos]
        exact ih

theorem wf_erase (reg : List (String × SSEClient)) (cid : String)
    (hwf : ∀ p ∈ reg, p.2.doneClosed = false) :
    ∀ p ∈ regErase reg cid, p.2.doneClosed = false :=
  fun p hp => hwf p (List.mem_of_mem_filter hp)

/-- The registry well-formedness used as a hypothesis below (every
registered client's done channel is open) is an invariant of the reachable
states: registration only inserts fresh open clients, and `RemoveSSEClient`
closes and deletes atomically under the exclusive lock. -/
theorem wf_addSSEClient (s : AppServer) (cid : String) (b : Bool)
    (hwf : ∀ p ∈ s.sseClients, p.2.doneClosed = false) :
    ∀ p ∈ (AddSSEClient s cid b).2.sseClients, p.2.doneClosed = false := by
  intro p hp
  cases b with
  | false => exact hwf p hp
  | true =>
      simp only [AddSSEClient, Bool.not_true, Bool.false_eq_true, if_neg,
        not_false_iff] at hp
      rcases List.mem_append.mp hp with h | h
      · exact hwf p (List.mem_of_mem_filter h)
      · simp only [List.mem_singleton] at h
        rw [h]

theorem applyRemovals_spec (ids : List String) (s : AppServer)
    (hwf : ∀ p ∈ s.sseClients, p.2.doneClosed = false) :
    ∃ s', applyRemovals s ids = some s' ∧
      s'.config = s.config ∧ s'.events = s.events ∧ s'.eventID = s.eventID ∧
      s'.transformer = s.transformer ∧
      (∀ cid, cid ∈ ids → regGet s'.sseClients cid = none) ∧
      (∀ cid, cid ∉ ids → regGet s'.sseClients cid = regGet s.sseClients cid) := by
  induction ids generalizing s with
  | nil =>
      exact ⟨s, rfl, rfl, rfl, rfl, rfl,
        fun x hx => absurd hx (List.not_mem_nil x), fun _ _ => rfl⟩
  | cons cid rest ih =>
      cases hr : regGet s.sseClients cid with
      | none =>
          have hrm : RemoveSSEClient s cid = some (s, false) := by
            rw [RemoveSSEClient, hr]
          obtain ⟨s', h1, h2, h3, h4, h5, h6, h7⟩ := ih s hwf
          refine ⟨s', ?_, h2, h3, h4, h5, ?_, ?_⟩
          · simp only [applyRemovals, hrm]
            exact h1
          · intro x hx
            rcases List.mem_cons.mp hx with hx | hx
            · subst hx
              by_cases hxr : x ∈ rest
              · exact h6 x hxr
              · rw [h7 x hxr, hr]
            · exact h6 x hx
          · intro x hx
            simp only [List.mem_cons, not_or] at hx
            exact h7 x hx.2
      | some client =>
          have hdone : client.doneClosed = false :=
            doneClosed_of_regGet s.sseClients hwf cid client hr
          have hrm : RemoveSSEClient s cid
              = some ({ s with sseClients := regErase s.sseClients cid }, true) := by
            simp [RemoveSSEClient, hr, closeChan, hdone]
          have hwf₁ : ∀ p ∈ (regErase s.sseClients cid), p.2.doneClosed = false :=
            wf_erase s.sseClients cid hwf
          obtain ⟨s', h1, h2, h3, h4, h5, h6, h7⟩ :=
            ih { s with sseClients := regErase s.sseClients cid } hwf₁
          refine ⟨s', ?_, h2, h3, h4, h5, ?_, ?_⟩
          · simp only [applyRemovals, hrm]
            exact h1
          · intro x hx
            rcases List.mem_cons.mp hx with hx | hx
            · subst hx
              by_cases hxr : x ∈ rest
              · exact h6 x hxr
              · rw [h7 x hxr]
                exact regGet_erase_self s.sseClients x
            · exact h6 x hx
          · intro x hx
            simp only [List.mem_cons, not_or] at hx
            rw [h7 x hx.2]
            exact regGet_erase_other s.sseClients cid x hx.1

/-- Claim C3: delivery failures during one broadcast are isolated.  For
every well-formed registry: the append-and-broadcast composite never
surfaces an error to the producer (the event buffer and id counter end up
exactly as after the plain append, whatever `writeFails` is); every
registered subscriber whose sink does not fail (and whose done channel is
open) receives exactly one push of the (possibly transformed) new event and
stays registered; every subscriber whose sink fails is unregistered by the
end of the publish cycle. -/
theorem broadcast_isolation (s : AppServer) (schema : String)
    (data : List DataMap) (ts now : Nat) (writeFails : String → Bool)
    (hwf : ∀ p ∈ s.sseClients, p.2.doneClosed = false)
    (hnd : (s.sseClients.map Prod.fst).Nodup) :
    ∃ s'' pushes,
      AddEventBroadcastWithTime s schema data ts now writeFails
        = some (s'', pushes) ∧
      s''.events = (AddEventWithTime s schema data ts now).events ∧
      s''.eventID = (AddEventWithTime s schema data ts now).eventID ∧
      (∀ cid c, regGet s.sseClients cid = some c → writeFails cid = false →
        pushes.filter (fun p => p.1 == cid)
          = [(cid, eventToSend s (builtEvent (s.eventID + 1) schema data ts now))] ∧
        regGet s''.sseClients cid = regGet s.sseClients cid) ∧
      (∀ cid c, regGet s.sseClients cid = some c → writeFails cid = true →
        regGet s''.sseClients cid = none) := by
  set s' := AddEventWithTime s schema data ts now with hs'
  set ev := eventToSend s (builtEvent (s.eventID + 1) schema data ts now) with hev
  have hclients : s'.sseClients = s.sseClients := rfl
  have hdr : broadcastNewEvent s' (builtEvent (s.eventID + 1) schema data ts now) writeFails
      = broadcastLoop s.sseClients ev writeFails := rfl
  have hwf' : ∀ p ∈ s'.sseClients, p.2.doneClosed = false := hwf
  obtain ⟨s'', h1, h2, h3, h4, h5, h6, h7⟩ :=
    applyRemovals_spec (broadcastLoop s.sseClients ev writeFails).2 s' hwf'
  refine ⟨s'', (broadcastLoop s.sseClients ev writeFails).1, ?_, h3, h4, ?_, ?_⟩
  · simp only [AddEventBroadcastWithTime, hdr, h1]
  · intro cid c hc hok
    have hmem : (cid, c) ∈ s.sseClients := regGet_mem s.sseClients cid c hc
    have hdone : c.doneClosed = false :=
      doneClosed_of_regGet s.sseClients hwf cid c hc
    refine ⟨broadcastLoop_pushes_mem s.sseClients ev writeFails cid c hnd hmem hdone hok, ?_⟩
    have hnotrm : cid ∉ (broadcastLoop s.sseClients ev writeFails).2 := by
      rw [broadcastLoop_removed_eq]
      intro hin
      simp only [List.mem_map, List.mem_filter] at hin
      obtain ⟨p, ⟨_, hp2⟩, hp3⟩ := hin
      rw [hp3, hok] at hp2
      simp at hp2
    rw [h7 cid hnotrm]
    rfl
  · intro cid c hc hfail
    have hmem : (cid, c) ∈ s.sseClients := regGet_mem s.sseClients cid c hc
    have hdone : c.doneClosed = false :=
      doneClosed_of_regGet s.sseClients hwf cid c hc
    have hrm : cid ∈ (broadcastLoop s.sseClients ev writeFails).2 := by
      rw [broadcastLoop_removed_eq]
      simp only [List.mem_map, List.mem_filter]
      exact ⟨(cid, c), ⟨hmem, by rw [hdone, hfail]; rfl⟩, rfl⟩
    exact h6 cid hrm

/-- Claim C3 witness: on the two-client server, with `"bad"`'s sink failing,
the composite append-and-broadcast leaves the store as the plain append
does, pushes the event exactly once to `"good"` (which stays registered),
and unregisters `"bad"`. -/
theorem broadcast_isolation_witness :
    ∃ s'' pushes,
      AddEventBroadcastWithTime serverTwoClients "a" [dmap "k" 1] 0 0 failsBad
        = some (s'', pushes) ∧
      s''.events = (AddEventWithTime serverTwoClients "a" [dmap "k" 1] 0 0).events ∧
      s''.eventID = (AddEventWithTime serverTwoClients "a" [dmap "k" 1] 0 0).eventID ∧
      (∀ cid c, regGet serverTwoClients.sseClients cid = some c →
        failsBad cid = false →
        pushes.filter (fun p => p.1 == cid)
          = [(cid, eventToSend serverTwoClients
                (builtEvent (serverTwoClients.eventID + 1) "a" [dmap "k" 1] 0 0))] ∧
        regGet s''.sseClients cid = regGet serverTwoClients.sseClients cid) ∧
      (∀ cid c, regGet serverTwoClients.sseClients cid = some c →
        failsBad cid = true → regGet s''.sseClients cid = none) :=
  broadcast_isolation serverTwoClients "a" [dmap "k" 1] 0 0 failsBad
    (by decide) (by decide)

/-! ## Locking discipline of the broadcast -/

theorem broadcastBody_no_lock (clients : List (String × SSEClient))
    (fails : String → Bool) :
    ∀ a ∈ broadcastBody clients fails,
      a ≠ LockAction.rlockRegistry ∧ a ≠ LockAction.runlockRegistry := by
  induction clients with
  | nil => intro a ha; cases ha
  | cons q rest ih =>
      obtain ⟨qid, qc⟩ := q
      intro a ha
      rw [broadcastBody] at ha
      rcases List.mem_append.mp ha with hh | ht
      · have hsr : a = LockAction.send qid ∨ a = LockAction.scheduleRemove qid := by
          cases hd : qc.doneClosed <;> rw [hd] at hh
          · cases hf : fails qid <;> rw [hf] at hh
            · simp at hh
              exact Or.inl hh
            · simpa using hh
          · simp at hh
        rcases hsr with rfl | rfl
        · constructor <;> intro h <;> cases h
        · constructor <;> intro h <;> cases h
      · exact ih a ht

theorem sendsWhileUnlocked_locked (l : List LockAction) (d : Nat) (hd : 1 ≤ d)
    (hl : ∀ a ∈ l, a ≠ LockAction.rlockRegistry ∧ a ≠ LockAction.runlockRegistry) :
    sendsWhileUnlocked (l ++ [LockAction.runlockRegistry]) d = 0 := by
  induction l generalizing d with
  | nil => rfl
  | cons a rest ih =>
      have ha := hl a (List.mem_cons_self a rest)
      have hrest : ∀ b ∈ rest,
          b ≠ LockAction.rlockRegistry ∧ b ≠ LockAction.runlockRegistry :=
        fun b hb => hl b (List.mem_cons_of_mem a hb)
      cases a with
      | rlockRegistry => exact absurd rfl ha.1
      | runlockRegistry => exact absurd rfl ha.2
      | send cid =>
          rw [List.cons_append, sendsWhileUnlocked]
          rw [if_neg (by omega)]
          rw [ih d hd hrest]
      | scheduleRemove cid =>
          rw [List.cons_append, sendsWhileUnlocked]
          exact ih d hd hrest

theorem sendCount_append (l₁ l₂ : List LockAction) :
    sendCount (l₁ ++ l₂) = sendCount l₁ + sendCount l₂ :=
  List.countP_append _ l₁ l₂

theorem sendCount_body (clients : List (String × SSEClient))
    (fails : String → Bool) :
    sendCount (broadcastBody clients fails)
      = (clients.filter (fun p => !p.2.doneClosed)).length := by
  induction clients with
  | nil => rfl
  | cons q rest ih =>
      obtain ⟨qid, qc⟩ := q
      rw [broadcastBody, List.filter_cons, sendCount_append, ih]
      cases hd : qc.doneClosed
      · cases hf : fails qid
        · simp only [hd, hf, Bool.not_false, Bool.false_eq_true, if_neg,
            not_false_iff, if_pos, List.length_cons]
          rw [show sendCount [LockAction.send qid] = 1 from rfl]
          omega
        · simp only [hd, hf, Bool.not_false, Bool.false_eq_true, if_neg,
            not_false_iff, if_pos, List.length_cons]
          rw [show sendCount [LockAction.send qid, LockAction.scheduleRemove qid] = 1 from rfl]
          omega
      · simp only [hd, Bool.not_true, Bool.false_eq_true, if_neg,
          not_false_iff, if_pos]
        rw [show sendCount ([] : List LockAction) = 0 from rfl]
        omega

/-- Claim C6 counterexample: with one healthy registered client, the lock
trace of `broadcastNewEvent` performs its per-subscriber write while the
registry lock is held — the number of sends performed outside the lock (0)
differs from the total number of sends (1), refuting "the per-subscriber
writes happen outside the registry lock". -/
theorem publish_locking_counterexample :
    ¬ (sendsWhileUnlocked (broadcastTrace oneClient failsNone) 0
        = sendCount (broadcastTrace oneClient failsNone)) := by
  decide

/-- Claim C6 amended: `broadcastNewEvent` takes the registry read lock and
holds it across the whole client loop — no snapshot copy is taken and every
per-subscriber write happens while the (shared) registry lock is held: no
send occurs at lock depth 0, and there is exactly one write per registered
client whose done channel is open.  (Register/Unregister need the exclusive
lock, so they block for the duration of a broadcast; only the removal
goroutines are deferred past the unlock.) -/
theorem publish_holds_lock_during_sends (clients : List (String × SSEClient))
    (fails : String → Bool) :
    sendsWhileUnlocked (broadcastTrace clients fails) 0 = 0 ∧
    sendCount (broadcastTrace clients fails)
      = (clients.filter (fun p => !p.2.doneClosed)).length := by
  constructor
  · rw [broadcastTrace]
    rw [show sendsWhileUnlocked (LockAction.rlockRegistry
          :: broadcastBody clients fails ++ [LockAction.runlockRegistry]) 0
        = sendsWhileUnlocked
            (broadcastBody clients fails ++ [LockAction.runlockRegistry]) 1 from rfl]
    exact sendsWhileUnlocked_locked _ 1 (by omega) (broadcastBody_no_lock clients fails)
  · rw [broadcastTrace]
    rw [show sendCount (LockAction.rlockRegistry
        :: broadcastBody clients fails ++ [LockAction.runlockRegistry])
      = sendCount (broadcastBody clients fails ++ [LockAction.runlockRegistry]) from rfl]
    rw [sendCount_append]
    rw [show sendCount [LockAction.runlockRegistry] = 0 from rfl]
    rw [sendCount_body]
    omega

/-! ## The shallow copy returned by `GetEvents` -/

theorem getD_set_self {α : Type} (l : List α) (n : Nat) (x d : α)
    (hn : n < l.length) : (l.set n x).getD n d = x := by
  induction l generalizing n with
  | nil => simp at hn
  | cons y rest ih =>
      cases n with
      | zero => rfl
      | succ n' =>
          simp only [List.set_cons_succ, List.getD_cons_succ]
          exact ih n' (by simpa using hn)

theorem getD_set_ne {α : Type} (l : List α) (n m : Nat) (x d : α)
    (h : m ≠ n) : (l.set n x).getD m d = l.getD m d := by
  induction l generalizing n m with
  | nil => rfl
  | cons y rest ih =>
      cases n with
      | zero =>
          cases m with
          | zero => exact absurd rfl h
          | succ m' => rfl
      | succ n' =>
          cases m with
          | zero => rfl
          | succ m' =>
              simp only [List.set_cons_succ, List.getD_cons_succ]
              exact ih n' m' (fun hc => h (by rw [hc]))

/-- Claim C5 counterexample: the copy returned by `GetEvents` shares its
`Data` maps with the store.  In the concrete store, address 0 is reachable
through the returned value (the returned copy's data references are
`[[0]]`), and writing `x ↦ 2` into that map changes what a subsequent
`GetEvents` renders — refuting "mutating the events reachable through the
returned value does not change what a subsequent List() call returns". -/
theorem list_defensive_copy_counterexample :
    ((AliasModel.GetEventsA storeFix).map AliasModel.EventA.dataRefs) = [[0]] ∧
    ¬ (AliasModel.renderList
        { storeFix with heap := AliasModel.heapWrite storeFix.heap 0 "x" (JValue.num 2) }
        = AliasModel.renderList storeFix) := by
  refine ⟨rfl, ?_⟩
  intro h
  have h2 := congrArg
    (fun r => (((r.headD []).headD []).headD ("", JValue.null)).2) h
  have h3 : JValue.num 2 = JValue.num 1 := h2
  injection h3 with h4
  omega

/-- Claim C5 amended: `GetEvents` returns a shallow copy.  The store's own
event sequence cannot be changed through the returned slice (the event
structs are copied), but the `Data` maps are shared by reference: a caller
writing `k ↦ v` into a map whose address is reachable from the returned
events changes the data a subsequent `GetEvents` renders — at every buffer
position referencing that map — while positions referencing other maps are
unchanged. -/
theorem list_shallow_copy (s : AliasModel.StoreA) (i j a : Nat) (k : String)
    (v : JValue) (hi : i < (AliasModel.GetEventsA s).length)
    (hj : j < ((AliasModel.GetEventsA s).get ⟨i, hi⟩).dataRefs.length)
    (_ha : ((AliasModel.GetEventsA s).get ⟨i, hi⟩).dataRefs.get ⟨j, hj⟩ = a)
    (halen : a < s.heap.length) :
    ({ s with heap := AliasModel.heapWrite s.heap a k v } : AliasModel.StoreA).events
      = s.events ∧
    AliasModel.renderList { s with heap := AliasModel.heapWrite s.heap a k v }
      = s.events.map (fun e => e.dataRefs.map (fun b =>
          if b = a then AliasModel.mapWrite (s.heap.getD a []) k v
          else s.heap.getD b [])) := by
  refine ⟨rfl, ?_⟩
  rw [AliasModel.renderList, AliasModel.GetEventsA]
  apply List.map_congr_left
  intro e _
  rw [AliasModel.renderEvent]
  apply List.map_congr_left
  intro b _
  by_cases hba : b = a
  · subst hba
    rw [if_pos rfl, AliasModel.heapWrite, getD_set_self _ _ _ _ halen]
  · rw [if_neg hba, AliasModel.heapWrite, getD_set_ne _ _ _ _ _ hba]

/-- Claim C5 amended witness: the write through the returned copy on the
concrete store, with the rendered change made explicit. -/
theorem list_shallow_copy_witness :
    ({ storeFix with heap := AliasModel.heapWrite storeFix.heap 0 "x" (JValue.num 2) }
        : AliasModel.StoreA).events = storeFix.events ∧
    AliasModel.renderList
        { storeFix with heap := AliasModel.heapWrite storeFix.heap 0 "x" (JValue.num 2) }
      = storeFix.events.map (fun e => e.dataRefs.map (fun b =>
          if b = 0 then AliasModel.mapWrite (storeFix.heap.getD 0 []) "x" (JValue.num 2)
          else storeFix.heap.getD b [])) :=
  list_shallow_copy storeFix 0 0 0 "x" (JValue.num 2)
    (by decide) (by decide) (by decide) (by decide)

/-! ## Ingestion -/

theorem filterMap_obj (objs : List DataMap) :
    (objs.map JValue.obj).filterMap (fun item =>
      match item with
      | JValue.obj dataMap => some [dataMap]
      | _ => none)
      = objs.map (fun m => [m]) := by
  induction objs with
  | nil => rfl
  | cons m rest ih =>
      simp only [List.map_cons, List.filterMap_cons]
      rw [ih]

theorem foldl_addEvents_eventID (objs : List DataMap) (s : AppServer)
    (schema : String) (now : Nat) :
    ((objs.map (fun m => [m])).foldl
      (fun srv eventData => AddEventWithTime srv schema eventData now now) s).eventID
      = s.eventID + objs.length := by
  induction objs generalizing s with
  | nil => rfl
  | cons m rest ih =>
      simp only [List.map_cons, List.foldl_cons, List.length_cons]
      rw [ih, AddEventWithTime_eventID]
      omega

theorem foldl_addEvents_events (objs : List DataMap) (s : AppServer)
    (schema : String) (now : Nat)
    (hcap : (s.events.length : Int) + (objs.length : Int) ≤ s.config.server.maxMsgs) :
    ((objs.map (fun m => [m])).foldl
      (fun srv eventData => AddEventWithTime srv schema eventData now now) s).events
      = s.events ++ batchEvents s.eventID schema now objs := by
  induction objs generalizing s with
  | nil => simp [batchEvents]
  | cons m rest ih =>
      simp only [List.map_cons, List.foldl_cons]
      have hlen : (s.events ++ [builtEvent (s.eventID + 1) schema [m] now now]).length
          = s.events.length + 1 := by simp
      have hng : ¬ (((s.events ++ [builtEvent (s.eventID + 1) schema [m] now now]).length : Int)
          > s.config.server.maxMsgs) := by
        rw [hlen]
        simp only [List.length_cons] at hcap
        push_cast at hcap
        intro hc
        push_cast at hc
        omega
      have hev1 : (AddEventWithTime s schema [m] now now).events
          = s.events ++ [builtEvent (s.eventID + 1) schema [m] now now] := by
        rw [AddEventWithTime_events, if_neg hng]
      have hcap1 : (((AddEventWithTime s schema [m] now now).events.length : Int)
          + (rest.length : Int)
          ≤ (AddEventWithTime s schema [m] now now).config.server.maxMsgs) := by
        rw [hev1, AddEventWithTime_config, hlen]
        simp only [List.length_cons] at hcap
        push_cast at hcap ⊢
        omega
      rw [ih (AddEventWithTime s schema [m] now now) hcap1, hev1,
        AddEventWithTime_eventID, List.append_assoc]
      rfl

theorem handlePost_batch (s : AppServer) (payload : DataMap) (now : Nat)
    (schema : String) (objs : List DataMap)
    (hschema : lookupField payload "schema" = some (JValue.str schema))
    (hdata : lookupField payload "data" = some (JValue.arr (objs.map JValue.obj)))
    (hne : objs ≠ []) :
    (handlePostJSON s payload now).2 = none ∧
    (handlePostJSON s payload now).1.eventID = s.eventID + objs.length ∧
    (((s.events.length : Int) + (objs.length : Int) ≤ s.config.server.maxMsgs) →
      (handlePostJSON s payload now).1.events
        = s.events ++ batchEvents s.eventID schema now objs) := by
  have hmpty : ((objs.map (fun m => [m])).isEmpty) = false := by
    cases objs with
    | nil => exact absurd rfl hne
    | cons m rest => rfl
  have hred : handlePostJSON s payload now
      = ((objs.map (fun m => [m])).foldl
          (fun srv eventData => AddEventWithTime srv schema eventData now now) s,
         none) := by
    simp only [handlePostJSON, hschema, hdata, filterMap_obj, hmpty,
      Bool.false_eq_true, if_neg, not_false_iff]
  rw [hred]
  exact ⟨rfl, foldl_addEvents_eventID objs s schema now,
    fun hcap => foldl_addEvents_events objs s schema now hcap⟩

theorem handlePost_malformed (s : AppServer) (payload : DataMap) (now : Nat)
    (h : malformedPayload payload = true) :
    (handlePostJSON s payload now).1 = s ∧
    ((handlePostJSON s payload now).2).isSome = true := by
  cases hs : lookupField payload "schema" with
  | none => constructor <;> simp [handlePostJSON, hs]
  | some v =>
      cases v with
      | str schema =>
          cases hd : lookupField payload "data" with
          | none => constructor <;> simp [handlePostJSON, hs, hd]
          | some dv =>
              cases dv with
              | arr xs =>
                  simp only [malformedPayload, hs, hd, Bool.not_eq_true'] at h
                  have hempty : (xs.filterMap (fun item =>
                      match item with
                      | JValue.obj dataMap => some [dataMap]
                      | _ => none)) = [] := by
                    rw [List.filterMap_eq_nil_iff]
                    intro item hitem
                    have := List.any_eq_false.mp h item hitem
                    cases item <;> first | rfl | exact absurd rfl this
                  constructor <;> simp [handlePostJSON, hs, hd, hempty]
              | obj m => simp [malformedPayload, hs, hd] at h
              | str t => constructor <;> simp [handlePostJSON, hs, hd]
              | num n => constructor <;> simp [handlePostJSON, hs, hd]
              | boolean b => constructor <;> simp [handlePostJSON, hs, hd]
              | null => constructor <;> simp [handlePostJSON, hs, hd]
      | num n => constructor <;> simp [handlePostJSON, hs]
      | boolean b => constructor <;> simp [handlePostJSON, hs]
      | null => constructor <;> simp [handlePostJSON, hs]
      | arr xs => constructor <;> simp [handlePostJSON, hs]
      | obj fields => constructor <;> simp [handlePostJSON, hs]

/-- Claim C9: the JSON ingestion contract.  (1) For a well-formed payload
whose data is a non-empty array of `k` objects, the handler reports no
error and appends `k` independent events — the id counter advances by `k`,
and (when they fit the capacity) the buffer is extended by exactly the `k`
events with consecutive ids, one-element data holding each object in order,
and one shared timestamp.  (2) For every malformed payload (missing or
non-string schema, missing data, or data neither an object nor an array
containing at least one object) the request is answered with an error and
the store is left untouched — no event is appended. -/
theorem ingestion_contract (s : AppServer) (payload : DataMap) (now : Nat) :
    (∀ schema objs,
      lookupField payload "schema" = some (JValue.str schema) →
      lookupField payload "data" = some (JValue.arr (objs.map JValue.obj)) →
      objs ≠ [] →
      (handlePostJSON s payload now).2 = none ∧
      (handlePostJSON s payload now).1.eventID = s.eventID + objs.length ∧
      (((s.events.length : Int) + (objs.length : Int) ≤ s.config.server.maxMsgs) →
        (handlePostJSON s payload now).1.events
          = s.events ++ batchEvents s.eventID schema now objs)) ∧
    (malformedPayload payload = true →
      (handlePostJSON s payload now).1 = s ∧
      ((handlePostJSON s payload now).2).isSome = true) :=
  ⟨fun schema objs h1 h2 h3 => handlePost_batch s payload now schema objs h1 h2 h3,
   fun h => handlePost_malformed s payload now h⟩

/-- Claim C9 witness: the two-object batch payload appends two events with
ids 1 and 2, one-element data and the shared timestamp; the no-object-array
payload is rejected with the store unchanged. -/
theorem ingestion_contract_witness :
    (handlePostJSON (New cfg3) payloadGood 5).2 = none ∧
    (handlePostJSON (New cfg3) payloadGood 5).1.events
      = [builtEvent 1 "iglu:com.acme/events" [dmap "x" 1] 5 5,
         builtEvent 2 "iglu:com.acme/events" [dmap "y" 2] 5 5] ∧
    (handlePostJSON (New cfg3) payloadBad 5).1 = New cfg3 ∧
    ((handlePostJSON (New cfg3) payloadBad 5).2).isSome = true := by
  have hg := (ingestion_contract (New cfg3) payloadGood 5).1 "iglu:com.acme/events"
    [dmap "x" 1, dmap "y" 2] rfl rfl (by intro hc; cases hc)
  have hb := (ingestion_contract (New cfg3) payloadBad 5).2 rfl
  refine ⟨hg.1, ?_, hb.1, hb.2⟩
  rw [hg.2.2 (by decide)]
  rfl

/-! ## Single-item unwrapping on the SSE path -/

/-- Claim C10: on the broadcast path, the display transformer preserves the
number of data items and sets `UnwrapSingleItem` exactly when the
(raw-stored, hence unmarked) event has one data item; `SendEventToClient`
then serializes a one-item event's data as the single transformed object,
while an event with two or more items keeps its data as an array; and the
store is unaffected — everything `GetEvents` returns after an append is
either an old stored event or the raw new event (untransformed data,
`UnwrapSingleItem` false). -/
theorem sse_unwrap_single (e : Event) (hraw : e.unwrapSingleItem = false) :
    (transformEventForDisplay e).data.length = e.data.length ∧
    (transformEventForDisplay e).unwrapSingleItem = decide (e.data.length = 1) ∧
    (∀ m, e.data = [m] →
      dataToSend (transformEventForDisplay e)
        = SSEDataShape.single (transformEvent m)) ∧
    (2 ≤ e.data.length →
      dataToSend (transformEventForDisplay e)
        = SSEDataShape.array (e.data.map transformEvent)) ∧
    (∀ s schema d t n, ∀ ev ∈ GetEvents (AddEventWithTime s schema d t n),
      ev ∈ s.events ∨ ev = builtEvent (s.eventID + 1) schema d t n) := by
  refine ⟨?_, ?_, ?_, ?_, ?_⟩
  · simp only [transformEventForDisplay]
    split <;> simp
  · simp only [transformEventForDisplay]
    split
    · rename_i hone
      simp only [List.length_map] at hone
      simp [hone]
    · rename_i hone
      simp only [List.length_map] at hone
      simp [hone, hraw]
  · intro m hm
    obtain ⟨id, schema, data, ts, ra, u⟩ := e
    simp only at hm hraw
    subst hm hraw
    rfl
  · intro h2
    obtain ⟨id, schema, data, ts, ra, u⟩ := e
    simp only at h2 hraw
    subst hraw
    match data, h2 with
    | a :: b :: rest, _ => rfl
  · intro s schema d t n ev hev
    rw [GetEvents, AddEventWithTime_events] at hev
    have hev' : ev ∈ s.events ++ [builtEvent (s.eventID + 1) schema d t n] := by
      split at hev
      · exact List.mem_of_mem_drop hev
      · exact hev
    rcases List.mem_append.mp hev' with h | h
    · exact Or.inl h
    · simp only [List.mem_singleton] at h
      exact Or.inr h

/-- Claim C10 witness: the one-item page-view event is serialized with its
data unwrapped to the single transformed object; the two-item event keeps
the array shape and stays unmarked. -/
theorem sse_unwrap_single_witness :
    dataToSend (transformEventForDisplay pvEvent)
      = SSEDataShape.single
          (transformEvent [("e", JValue.str "pv"), ("url", JValue.str "/home")]) ∧
    (transformEventForDisplay twoItemEvent).unwrapSingleItem = false ∧
    dataToSend (transformEventForDisplay twoItemEvent)
      = SSEDataShape.array (twoItemEvent.data.map transformEvent) := by
  have h1 := sse_unwrap_single pvEvent rfl
  have h2 := sse_unwrap_single twoItemEvent rfl
  refine ⟨h1.2.2.1 _ rfl, ?_, h2.2.2.2.1 (by decide)⟩
  rw [h2.2.1]
  decide

end Goplow
